import Mathlib

/-!
Shallow embedding of the chunked-upload subsystem of `socrata-py`
(`src/socrata/sources.py`): the `ChunkIterator` stream splitter, the
upload coordinator `Source._chunked_bytes`, and the public upload entry
points (`csv`, `xls`, `xlsx`, `tsv`, `shapefile`, `kml`, `geojson`,
`blob`, `bytes`, `df`).

Bytes are modelled as `Nat`, a byte stream as `List Nat`.  The remote
calls (`initiate`, `chunk`, `commit`, `show`, and the parse-option
toggle) are modelled as events recorded in a trace, with their outcomes
supplied by a `Config`.
-/

namespace Socrata

/-- One unit of transfer, as produced by `ChunkIterator.__next__`
(sources.py line 90): `(this_seq, this_byte_offset, self.byte_offset, read)`. -/
structure Chunk where
  seq_num : Nat
  byte_offset : Nat
  end_byte_offset : Nat
  payload : List Nat
deriving Repr, DecidableEq

/-- Mutable state of a `ChunkIterator` (sources.py lines 70-75): the
not-yet-read remainder of the file-like stream together with the
`seq_num` and `byte_offset` counters. -/
structure IterState where
  stream : List Nat
  seq_num : Nat
  byte_offset : Nat
deriving Repr, DecidableEq

namespace ChunkIterator

/-- One call of `ChunkIterator.__next__` (sources.py lines 80-90): read up
to `chunk_size` bytes (`read = self._filelike.read(self._chunk_size)`,
modelled as `take`/`drop` on the remaining stream); if nothing was read,
raise `StopIteration` (modelled as `none`); otherwise emit the chunk and
advance both counters.  The whole body runs under `self.lock`, so one
call is one atomic state transition. -/
def next (chunk_size : Nat) (st : IterState) : Option (Chunk × IterState) :=
  let read := st.stream.take chunk_size
  if read.isEmpty then
    none
  else
    some ({ seq_num := st.seq_num,
            byte_offset := st.byte_offset,
            end_byte_offset := st.byte_offset + read.length,
            payload := read },
          { stream := st.stream.drop chunk_size,
            seq_num := st.seq_num + 1,
            byte_offset := st.byte_offset + read.length })

end ChunkIterator

/-- Drain a `ChunkIterator` to a list of chunks.  The `fuel` argument
bounds the recursion; any `fuel > st.stream.length` is enough, because a
successful `next` consumes at least one byte and an empty read stops the
iteration. -/
def chunksAux (chunk_size : Nat) : Nat → IterState → List Chunk
  | 0, _ => []
  | fuel + 1, st =>
    match ChunkIterator.next chunk_size st with
    | none => []
    | some (c, st2) => c :: chunksAux chunk_size fuel st2

/-- All chunks produced by iterating a fresh `ChunkIterator(filelike,
chunk_size)` over a stream holding `data`. -/
def chunks (chunk_size : Nat) (data : List Nat) : List Chunk :=
  chunksAux chunk_size (data.length + 1) { stream := data, seq_num := 0, byte_offset := 0 }

/-- Python exceptions that the chunked-upload pipeline can raise. -/
inductive PyErr where
  /-- `AttributeError`: the object passed as the file handle has no
  `read` method (a Python `bytes` value, as passed by `Source.df`). -/
  | attributeError
  /-- `IndexError: list index out of range`, raised by
  `sorted(results, key=...)[-1]` when `results` is empty. -/
  | indexError
  /-- A transport-level failure raised by the `chunk` POST for the given
  `seq_num`. -/
  | transportError (seq_num : Nat)
deriving Repr, DecidableEq

/-- The value passed to `_chunked_bytes` as `file_handle`.  `handle` is a
file-like object whose `read(n)` returns the next at-most-`n` bytes;
`raw` is a plain Python `bytes` value (what `Source.df` passes at
sources.py line 377), which has no `read` method at all. -/
inductive FileLikeVal where
  | handle (data : List Nat)
  | raw (data : List Nat)
deriving Repr, DecidableEq

namespace FileLikeVal

/-- Attribute lookup plus call of `read(n)` on the file handle: a real
file-like object yields up to `n` bytes and keeps the rest; a `bytes`
value raises `AttributeError` because it has no such method. -/
def read : FileLikeVal → Nat → Except PyErr (List Nat × FileLikeVal)
  | handle data, n => .ok (data.take n, handle (data.drop n))
  | raw _, _ => .error .attributeError

/-- Number of bytes held by the value (used only to size recursion fuel). -/
def size : FileLikeVal → Nat
  | handle data => data.length
  | raw data => data.length

end FileLikeVal

/-- State of a `ChunkIterator` whose `_filelike` may be any Python value. -/
structure IterStateE where
  stream : FileLikeVal
  seq_num : Nat
  byte_offset : Nat
deriving Repr, DecidableEq

/-- Drain a `ChunkIterator` over an arbitrary `_filelike` value,
propagating the `AttributeError` that `read` raises on a non-file-like
object.  Mirrors sources.py lines 80-90 step by step. -/
def chunksAuxE (chunk_size : Nat) : Nat → IterStateE → Except PyErr (List Chunk)
  | 0, _ => .ok []
  | fuel + 1, st =>
    match st.stream.read chunk_size with
    | .error e => .error e
    | .ok (read, rest) =>
      if read.isEmpty then
        .ok []
      else
        match chunksAuxE chunk_size fuel
            { stream := rest, seq_num := st.seq_num + 1,
              byte_offset := st.byte_offset + read.length } with
        | .error e => .error e
        | .ok cs =>
          .ok ({ seq_num := st.seq_num, byte_offset := st.byte_offset,
                 end_byte_offset := st.byte_offset + read.length,
                 payload := read } :: cs)

/-- All chunks drained from `ChunkIterator(file_handle, chunk_size)`, or
the first exception the iteration raises. -/
def chunksE (chunk_size : Nat) (file_handle : FileLikeVal) : Except PyErr (List Chunk) :=
  chunksAuxE chunk_size (file_handle.size + 1)
    { stream := file_handle, seq_num := 0, byte_offset := 0 }

/-- Remote resource snapshot returned by `self.show()`. -/
structure Snapshot where
  resource_id : Nat
deriving Repr, DecidableEq

/-- The slice of `Source.attributes` that the upload entry points read:
`attributes['parse_options']['parse_source']` (sources.py line 193). -/
structure SourceAttrs where
  parse_source : Bool
deriving Repr, DecidableEq

/-- Observable remote calls issued by the pipeline, in program order. -/
inductive Event where
  /-- `self.initiate(content_type)` (sources.py line 116). -/
  | initiate (content_type : String)
  /-- `self.chunk(seq_num, byte_offset, bytes)` (sources.py line 122). -/
  | chunk (seq_num : Nat) (byte_offset : Nat) (payload : List Nat)
  /-- `self.commit(seq_num, byte_offset)` (sources.py line 128). -/
  | commit (seq_num : Nat) (end_byte_offset : Nat)
  /-- `self.show()` (sources.py line 129). -/
  | showCall
  /-- `self.change_parse_option(option).to(value).run()` (sources.py line 194). -/
  | parseOptionChange (option : String) (value : Bool)
deriving Repr, DecidableEq

namespace Event

def isCommit : Event → Bool
  | commit _ _ => true
  | _ => false

def isShow : Event → Bool
  | showCall => true
  | _ => false

def isParseOptionChange : Event → Bool
  | parseOptionChange _ _ => true
  | _ => false

/-- The `seq_num` of a chunk-upload call, if the event is one. -/
def chunkSeq? : Event → Option Nat
  | chunk s _ _ => some s
  | _ => none

/-- The content type passed to an `initiate` call, if the event is one. -/
def initCT? : Event → Option String
  | initiate ct => some ct
  | _ => none

end Event

/-- Environment of one upload call: the `initiate` response fields, the
outcome of each chunk POST, the completion order the worker pool happens
to produce, and the snapshot `show` returns. -/
structure Config where
  /-- `init['preferred_chunk_size']` (sources.py line 117). -/
  preferred_chunk_size : Nat
  /-- `init['preferred_upload_parallelism']` (sources.py line 118). -/
  preferred_upload_parallelism : Nat
  /-- Whether the `chunk` POST for a given `seq_num` raises a transport error. -/
  chunkFails : Nat → Bool
  /-- The order in which workers' completion records arrive; any
  rearrangement of the read-order chunk list (the well-behaved
  configurations are those with `∀ l, schedule l ~ l`). -/
  schedule : List Chunk → List Chunk
  /-- The snapshot `self.show()` returns. -/
  snapshot : Snapshot

/-- Modelled from the spec: `LazyThreadPoolExecutor.map` (socrata/lazy_pool.py
is not under src/).  Per spec §4.2 the pool concurrently pulls chunks and
runs `sendit` on each, producing completion records in an order that
carries no guarantee relative to `seq_num` (the caller passes the chunk
list already rearranged into that completion order); on the first chunk
failure it stops admitting new chunks and surfaces that error; there is
no per-chunk retry.  `sendit` (sources.py lines 120-123) posts
`chunk(seq_num, byte_offset, bytes)` and returns
`(seq_num, byte_offset, end_byte_offset)`.  The returned pair is the list
of chunk-POST events issued and either the first error or the completion
records in arrival order. -/
def poolRun (chunkFails : Nat → Bool) :
    List Chunk → List Event × Except PyErr (List (Nat × Nat × Nat))
  | [] => ([], .ok [])
  | c :: rest =>
    if chunkFails c.seq_num then
      ([.chunk c.seq_num c.byte_offset c.payload], .error (.transportError c.seq_num))
    else
      let (evs, res) := poolRun chunkFails rest
      (.chunk c.seq_num c.byte_offset c.payload :: evs,
       res.map (fun rs => (c.seq_num, c.byte_offset, c.end_byte_offset) :: rs))

/-- Stable insertion of a completion record into a list already sorted by
first component (the `seq_num` key). -/
def insertRec (x : Nat × Nat × Nat) : List (Nat × Nat × Nat) → List (Nat × Nat × Nat)
  | [] => [x]
  | y :: ys => if x.1 ≤ y.1 then x :: y :: ys else y :: insertRec x ys

/-- Python's `sorted(results, key=lambda x: x[0])` (sources.py line 127):
a stable sort ascending by the first tuple component, modelled as
insertion sort. -/
def pySorted (results : List (Nat × Nat × Nat)) : List (Nat × Nat × Nat) :=
  results.foldr insertRec []

/-- `Source._chunked_bytes(file_handle, content_type)` (sources.py lines
115-129): call `initiate`, drain the `ChunkIterator` through the worker
pool, then take `sorted(results, key=lambda x: x[0])[-1]` — raising
`IndexError` if `results` is empty — and call
`commit(seq_num, end_byte_offset)` followed by `self.show()`.  The
`attrs` argument is the `self` attributes the call runs on; the offsets
committed do not depend on it.  Returns the trace of remote calls and
either the exception propagated to the caller or the `show` snapshot. -/
def chunked_bytes (_attrs : SourceAttrs) (cfg : Config) (file_handle : FileLikeVal)
    (content_type : String) : List Event × Except PyErr Snapshot :=
  match chunksE cfg.preferred_chunk_size file_handle with
  | .error e => ([.initiate content_type], .error e)
  | .ok cs =>
    let pr := poolRun cfg.chunkFails (cfg.schedule cs)
    match pr.2 with
    | .error e => (.initiate content_type :: pr.1, .error e)
    | .ok results =>
      match (pySorted results).getLast? with
      | none => (.initiate content_type :: pr.1, .error .indexError)
      | some r =>
        (.initiate content_type :: pr.1 ++ [.commit r.1 r.2.2, .showCall],
         .ok cfg.snapshot)

namespace Source

/-- `Source.bytes(uri, file_handle, content_type)` (sources.py lines
138-140): runs `_chunked_bytes` but has no `return` statement, so a
successful call returns Python `None`, discarding the snapshot. -/
def bytes (attrs : SourceAttrs) (cfg : Config) (file_handle : FileLikeVal)
    (content_type : String) : List Event × Except PyErr (Option Snapshot) :=
  let r := chunked_bytes attrs cfg file_handle content_type
  (r.1, r.2.map fun _ => none)

/-- `Source.csv` (sources.py line 218). -/
def csv (attrs : SourceAttrs) (cfg : Config) (file_handle : FileLikeVal) :
    List Event × Except PyErr Snapshot :=
  chunked_bytes attrs cfg file_handle "text/csv"

/-- `Source.xls` (sources.py line 240). -/
def xls (attrs : SourceAttrs) (cfg : Config) (file_handle : FileLikeVal) :
    List Event × Except PyErr Snapshot :=
  chunked_bytes attrs cfg file_handle "application/vnd.ms-excel"

/-- `Source.xlsx` (sources.py line 262). -/
def xlsx (attrs : SourceAttrs) (cfg : Config) (file_handle : FileLikeVal) :
    List Event × Except PyErr Snapshot :=
  chunked_bytes attrs cfg file_handle
    "application/vnd.openxmlformats-officedocument.spreadsheetml.sheet"

/-- `Source.tsv` (sources.py line 284). -/
def tsv (attrs : SourceAttrs) (cfg : Config) (file_handle : FileLikeVal) :
    List Event × Except PyErr Snapshot :=
  chunked_bytes attrs cfg file_handle "text/tab-separated-values"

/-- `Source.shapefile` (sources.py line 306). -/
def shapefile (attrs : SourceAttrs) (cfg : Config) (file_handle : FileLikeVal) :
    List Event × Except PyErr Snapshot :=
  chunked_bytes attrs cfg file_handle "application/zip"

/-- `Source.kml` (sources.py line 328). -/
def kml (attrs : SourceAttrs) (cfg : Config) (file_handle : FileLikeVal) :
    List Event × Except PyErr Snapshot :=
  chunked_bytes attrs cfg file_handle "application/vnd.google-earth.kml+xml"

/-- `Source.geojson` (sources.py line 351). -/
def geojson (attrs : SourceAttrs) (cfg : Config) (file_handle : FileLikeVal) :
    List Event × Except PyErr Snapshot :=
  chunked_bytes attrs cfg file_handle "application/vnd.geo+json"

/-- Modelled from the spec: `change_parse_option('parse_source').to(False).run()`
(sources.py line 194; the `ParseOptionBuilder` lives in
socrata/builders/parse_options.py, which is not under src/).  Per spec
§4.3 it delegates to the external resource layer a mutation that disables
automatic parsing on the owning resource and returns the mutated source. -/
def disableParseSource (attrs : SourceAttrs) : SourceAttrs :=
  { attrs with parse_source := false }

/-- `Source.blob` (sources.py lines 174-195): when
`attributes['parse_options']['parse_source']` is set, first disable it
through the external resource layer and run the pipeline on the resulting
source; otherwise run the pipeline on `self` unchanged.  The content type
is always `application/octet-stream`. -/
def blob (attrs : SourceAttrs) (cfg : Config) (file_handle : FileLikeVal) :
    List Event × Except PyErr Snapshot :=
  if attrs.parse_source then
    let toggled := disableParseSource attrs
    let r := chunked_bytes toggled cfg file_handle "application/octet-stream"
    (.parseOptionChange "parse_source" false :: r.1, r.2)
  else
    chunked_bytes attrs cfg file_handle "application/octet-stream"

/-- `Source.df` (sources.py lines 354-377): serialize the DataFrame to
CSV text and pass `bytes(s.getvalue().encode())` — a raw Python `bytes`
value, not a file-like object — to `_chunked_bytes` with content type
`text/csv`.  The DataFrame is modelled by the byte string its
`to_csv` serialization produces. -/
def df (attrs : SourceAttrs) (cfg : Config) (dataframe_csv : List Nat) :
    List Event × Except PyErr Snapshot :=
  chunked_bytes attrs cfg (.raw dataframe_csv) "text/csv"

end Source

/-- Concurrent use of one `ChunkIterator` by several callers.  Because the
whole body of `__next__` executes inside `with self.lock:` (sources.py
line 81), each call is a single atomic transition of the shared state;
an arbitrary interleaving of callers is therefore a sequence of atomic
`next` calls, given here by the list of caller ids in the order their
calls enter the critical section.  Each entry records which caller
received which chunk; a caller that hits end-of-stream receives nothing. -/
def runCallers (chunk_size : Nat) : List Nat → IterState → List (Nat × Chunk)
  | [], _ => []
  | caller :: rest, st =>
    match ChunkIterator.next chunk_size st with
    | none => runCallers chunk_size rest st
    | some (c, st2) => (caller, c) :: runCallers chunk_size rest st2

/-! Lemmas about `ChunkIterator` and `chunksAux`. -/

theorem take_isEmpty_false {C : Nat} {l : List Nat} (hC : 0 < C) (hl : l ≠ []) :
    (l.take C).isEmpty = false := by
  rw [List.isEmpty_eq_false, Ne, List.take_eq_nil_iff]
  push_neg
  exact ⟨by omega, hl⟩

theorem chunksAux_stream_nil {C fuel s b : Nat} :
    chunksAux C fuel { stream := [], seq_num := s, byte_offset := b } = [] := by
  cases fuel <;> simp [chunksAux, ChunkIterator.next]

theorem chunksAux_succ_of_empty {C fuel : Nat} (st : IterState)
    (h : (st.stream.take C).isEmpty = true) :
    chunksAux C (fuel + 1) st = [] := by
  simp [chunksAux, ChunkIterator.next, h]

theorem chunksAux_succ_of_read {C fuel : Nat} (st : IterState)
    (h : (st.stream.take C).isEmpty = false) :
    chunksAux C (fuel + 1) st =
      { seq_num := st.seq_num, byte_offset := st.byte_offset,
        end_byte_offset := st.byte_offset + (st.stream.take C).length,
        payload := st.stream.take C } ::
      chunksAux C fuel
        { stream := st.stream.drop C, seq_num := st.seq_num + 1,
          byte_offset := st.byte_offset + (st.stream.take C).length } := by
  simp [chunksAux, ChunkIterator.next, h]

theorem chunksAux_ne_nil {C fuel : Nat} {st : IterState} (hC : 0 < C)
    (hs : st.stream ≠ []) (hf : 0 < fuel) : chunksAux C fuel st ≠ [] := by
  cases fuel with
  | zero => omega
  | succ n => rw [chunksAux_succ_of_read _ (take_isEmpty_false hC hs)]; simp

theorem chunksAux_map_seq (C : Nat) :
    ∀ (fuel : Nat) (st : IterState),
      (chunksAux C fuel st).map Chunk.seq_num =
        List.range' st.seq_num (chunksAux C fuel st).length := by
  intro fuel
  induction fuel with
  | zero => intro st; simp [chunksAux]
  | succ n ih =>
    intro st
    by_cases h : (st.stream.take C).isEmpty
    · simp [chunksAux_succ_of_empty _ h]
    · rw [chunksAux_succ_of_read _ (Bool.eq_false_iff.mpr h)]
      simp only [List.map_cons, List.length_cons, List.range'_succ, ih]

theorem chunksAux_shape (C : Nat) :
    ∀ (fuel : Nat) (st : IterState), ∀ c ∈ chunksAux C fuel st,
      c.end_byte_offset = c.byte_offset + c.payload.length ∧
        c.payload.length ≤ C ∧ c.payload ≠ [] := by
  intro fuel
  induction fuel with
  | zero => intro st c hc; simp [chunksAux] at hc
  | succ n ih =>
    intro st c hc
    by_cases h : (st.stream.take C).isEmpty
    · rw [chunksAux_succ_of_empty _ h] at hc; simp at hc
    · rw [chunksAux_succ_of_read _ (Bool.eq_false_iff.mpr h)] at hc
      rcases List.mem_cons.mp hc with rfl | hc
      · refine ⟨rfl, ?_, ?_⟩
        · simp only [List.length_take]
          omega
        · rwa [← List.isEmpty_eq_false, Bool.eq_false_iff]
      · exact ih _ c hc

theorem chunksAux_byte_offset_le (C : Nat) :
    ∀ (fuel : Nat) (st : IterState), ∀ c ∈ chunksAux C fuel st,
      st.byte_offset ≤ c.byte_offset := by
  intro fuel
  induction fuel with
  | zero => intro st c hc; simp [chunksAux] at hc
  | succ n ih =>
    intro st c hc
    by_cases h : (st.stream.take C).isEmpty
    · rw [chunksAux_succ_of_empty _ h] at hc; simp at hc
    · rw [chunksAux_succ_of_read _ (Bool.eq_false_iff.mpr h)] at hc
      rcases List.mem_cons.mp hc with rfl | hc
      · exact Nat.le_refl _
      · exact Nat.le_trans (Nat.le_add_right _ _) (ih _ c hc)

theorem chunksAux_head_byte_offset {C fuel : Nat} {st : IterState} {c : Chunk}
    (h : (chunksAux C fuel st).head? = some c) : c.byte_offset = st.byte_offset := by
  cases fuel with
  | zero => simp [chunksAux] at h
  | succ n =>
    by_cases he : (st.stream.take C).isEmpty
    · rw [chunksAux_succ_of_empty _ he] at h; simp at h
    · rw [chunksAux_succ_of_read _ (Bool.eq_false_iff.mpr he)] at h
      simp only [List.head?_cons, Option.some.injEq] at h
      rw [← h]

theorem chunksAux_chain (C : Nat) :
    ∀ (fuel : Nat) (st : IterState),
      List.Chain' (fun a b => a.end_byte_offset = b.byte_offset) (chunksAux C fuel st) := by
  intro fuel
  induction fuel with
  | zero => intro st; simp [chunksAux]
  | succ n ih =>
    intro st
    by_cases h : (st.stream.take C).isEmpty
    · simp [chunksAux_succ_of_empty _ h]
    · rw [chunksAux_succ_of_read _ (Bool.eq_false_iff.mpr h)]
      rw [List.chain'_cons']
      refine ⟨fun y hy => ?_, ih _⟩
      exact (chunksAux_head_byte_offset hy).symm

theorem chunksAux_pairwise (C : Nat) :
    ∀ (fuel : Nat) (st : IterState),
      (chunksAux C fuel st).Pairwise (fun a b => a.end_byte_offset ≤ b.byte_offset) := by
  intro fuel
  induction fuel with
  | zero => intro st; simp [chunksAux]
  | succ n ih =>
    intro st
    by_cases h : (st.stream.take C).isEmpty
    · simp [chunksAux_succ_of_empty _ h]
    · rw [chunksAux_succ_of_read _ (Bool.eq_false_iff.mpr h)]
      refine List.Pairwise.cons (fun c hc => ?_) (ih _)
      exact chunksAux_byte_offset_le C n _ c hc

theorem chunksAux_getLast_end (C : Nat) (hC : 0 < C) :
    ∀ (fuel : Nat) (st : IterState), st.stream.length ≤ fuel →
      ∀ c, (chunksAux C fuel st).getLast? = some c →
        c.end_byte_offset = st.byte_offset + st.stream.length := by
  intro fuel
  induction fuel with
  | zero => intro st _ c hc; simp [chunksAux] at hc
  | succ n ih =>
    intro st hfuel c hc
    by_cases hs : st.stream = []
    · obtain ⟨stream, s, b⟩ := st
      simp only at hs
      subst hs
      rw [chunksAux_stream_nil] at hc
      simp at hc
    · have hne := take_isEmpty_false hC hs
      rw [chunksAux_succ_of_read _ hne] at hc
      rcases hrest : chunksAux C n
          { stream := st.stream.drop C, seq_num := st.seq_num + 1,
            byte_offset := st.byte_offset + (st.stream.take C).length } with _ | ⟨c0, rest⟩
      · have hdrop : st.stream.drop C = [] := by
          by_contra hd
          have hpos : 0 < st.stream.length := List.length_pos.mpr hs
          have hCl := List.drop_eq_nil_iff.not.mp hd
          have hn : 0 < n := by omega
          exact chunksAux_ne_nil hC hd hn hrest
        have hlen : st.stream.length ≤ C := List.drop_eq_nil_iff.mp hdrop
        rw [hrest] at hc
        simp only [List.getLast?_singleton, Option.some.injEq] at hc
        rw [← hc]
        simp only [List.length_take]
        omega
      · have hdrop : st.stream.drop C ≠ [] := by
          intro hd
          have h0 : chunksAux C n
              { stream := st.stream.drop C, seq_num := st.seq_num + 1,
                byte_offset := st.byte_offset + (st.stream.take C).length } = [] := by
            rw [hd]
            exact chunksAux_stream_nil
          rw [h0] at hrest
          exact List.noConfusion hrest
        have hCl : C < st.stream.length := by
          have h2 := List.drop_eq_nil_iff.not.mp hdrop
          omega
        rw [hrest, List.getLast?_cons_cons] at hc
        have hend := ih { stream := st.stream.drop C, seq_num := st.seq_num + 1,
                          byte_offset := st.byte_offset + (st.stream.take C).length }
          (by simp only [List.length_drop]; omega) c (by rw [hrest]; exact hc)
        rw [hend]
        simp only [List.length_take, List.length_drop]
        omega

theorem chunksAux_length_of_mul (C : Nat) (hC : 0 < C) :
    ∀ (q fuel : Nat) (st : IterState), st.stream.length = C * q →
      st.stream.length ≤ fuel → (chunksAux C fuel st).length = q := by
  intro q
  induction q with
  | zero =>
    intro fuel st hlen _
    have : st.stream = [] := List.length_eq_zero.mp (by omega)
    obtain ⟨stream, s, b⟩ := st
    simp only at this
    subst this
    simp [chunksAux_stream_nil]
  | succ q ih =>
    intro fuel st hlen hfuel
    rw [Nat.mul_succ] at hlen
    have hpos : 0 < st.stream.length := by omega
    have hs : st.stream ≠ [] := by
      intro h; rw [h] at hpos; simp at hpos
    obtain ⟨n, rfl⟩ : ∃ n, fuel = n + 1 := ⟨fuel - 1, by omega⟩
    rw [chunksAux_succ_of_read _ (take_isEmpty_false hC hs)]
    simp only [List.length_cons]
    rw [ih n { stream := st.stream.drop C, seq_num := st.seq_num + 1,
               byte_offset := st.byte_offset + (st.stream.take C).length }
      (by simp only [List.length_drop]; omega)
      (by simp only [List.length_drop]; omega)]

/-! Correspondence between the fallible iterator and the pure one, and
lemmas about the pool, the sort, and the coordinator. -/

theorem chunksAuxE_handle (C : Nat) :
    ∀ (fuel : Nat) (data : List Nat) (s b : Nat),
      chunksAuxE C fuel { stream := .handle data, seq_num := s, byte_offset := b } =
        .ok (chunksAux C fuel { stream := data, seq_num := s, byte_offset := b }) := by
  intro fuel
  induction fuel with
  | zero => intro data s b; simp [chunksAuxE, chunksAux]
  | succ n ih =>
    intro data s b
    by_cases h : (data.take C).isEmpty
    · simp [chunksAuxE, FileLikeVal.read, h,
        chunksAux_succ_of_empty { stream := data, seq_num := s, byte_offset := b } h]
    · have h' := Bool.eq_false_iff.mpr h
      simp only [chunksAuxE, FileLikeVal.read, h', ih,
        chunksAux_succ_of_read { stream := data, seq_num := s, byte_offset := b } h']
      simp [h']

theorem chunksE_handle (C : Nat) (data : List Nat) :
    chunksE C (.handle data) = .ok (chunks C data) := by
  simp [chunksE, FileLikeVal.size, chunks, chunksAuxE_handle]

theorem chunksE_raw (C : Nat) (data : List Nat) :
    chunksE C (.raw data) = .error .attributeError := by
  simp [chunksE, FileLikeVal.size, chunksAuxE, FileLikeVal.read]

theorem poolRun_ok (cf : Nat → Bool) :
    ∀ cs : List Chunk, (∀ c ∈ cs, cf c.seq_num = false) →
      poolRun cf cs =
        (cs.map (fun c => Event.chunk c.seq_num c.byte_offset c.payload),
         .ok (cs.map (fun c => (c.seq_num, c.byte_offset, c.end_byte_offset)))) := by
  intro cs
  induction cs with
  | nil => intro _; simp [poolRun]
  | cons c rest ih =>
    intro h
    have hc : cf c.seq_num = false := h c (List.mem_cons_self c rest)
    have hrest := ih (fun x hx => h x (List.mem_cons_of_mem c hx))
    simp [poolRun, hc, hrest, Except.map]

theorem poolRun_events_shape (cf : Nat → Bool) :
    ∀ cs : List Chunk, ∃ n,
      (poolRun cf cs).1 =
        (cs.take n).map (fun c => Event.chunk c.seq_num c.byte_offset c.payload) := by
  intro cs
  induction cs with
  | nil => exact ⟨0, by simp [poolRun]⟩
  | cons c rest ih =>
    by_cases hc : cf c.seq_num
    · exact ⟨1, by simp [poolRun, hc]⟩
    · obtain ⟨n, hn⟩ := ih
      exact ⟨n + 1, by simp [poolRun, hc, hn]⟩

theorem poolRun_error_of_fail (cf : Nat → Bool) :
    ∀ cs : List Chunk, (∃ c ∈ cs, cf c.seq_num = true) →
      ∃ m, (poolRun cf cs).2 = .error (.transportError m) ∧ cf m = true := by
  intro cs
  induction cs with
  | nil => rintro ⟨c, hc, _⟩; simp at hc
  | cons c rest ih =>
    rintro ⟨x, hx, hfx⟩
    by_cases hc : cf c.seq_num
    · exact ⟨c.seq_num, by simp [poolRun, hc], hc⟩
    · have hxr : x ∈ rest := by
        rcases List.mem_cons.mp hx with rfl | hxr
        · rw [hfx] at hc; exact absurd rfl hc
        · exact hxr
      obtain ⟨m, hm, hfm⟩ := ih ⟨x, hxr, hfx⟩
      refine ⟨m, ?_, hfm⟩
      simp only [poolRun, hc, Bool.false_eq_true, if_false]
      rw [show (poolRun cf rest) = ((poolRun cf rest).1, (poolRun cf rest).2) from rfl]
      simp [hm, Except.map]

theorem insertRec_perm (x : Nat × Nat × Nat) :
    ∀ l : List (Nat × Nat × Nat), (insertRec x l).Perm (x :: l) := by
  intro l
  induction l with
  | nil => simp [insertRec]
  | cons y ys ih =>
    by_cases h : x.1 ≤ y.1
    · simp [insertRec, h]
    · simp only [insertRec, h, if_false]
      exact (List.Perm.cons y ih).trans (List.Perm.swap x y ys)

theorem pySorted_perm (l : List (Nat × Nat × Nat)) : (pySorted l).Perm l := by
  induction l with
  | nil => simp [pySorted]
  | cons x xs ih =>
    have : pySorted (x :: xs) = insertRec x (pySorted xs) := rfl
    rw [this]
    exact (insertRec_perm x (pySorted xs)).trans (List.Perm.cons x ih)

theorem insertRec_sorted (x : Nat × Nat × Nat) :
    ∀ l : List (Nat × Nat × Nat), l.Pairwise (fun a b => a.1 ≤ b.1) →
      (insertRec x l).Pairwise (fun a b => a.1 ≤ b.1) := by
  intro l
  induction l with
  | nil => intro _; simp [insertRec]
  | cons y ys ih =>
    intro hp
    rcases List.pairwise_cons.mp hp with ⟨hy, hys⟩
    by_cases h : x.1 ≤ y.1
    · simp only [insertRec, h, if_true]
      refine List.Pairwise.cons ?_ hp
      intro z hz
      rcases List.mem_cons.mp hz with rfl | hz
      · exact h
      · exact Nat.le_trans h (hy z hz)
    · simp only [insertRec, h, if_false]
      refine List.Pairwise.cons ?_ (ih hys)
      intro z hz
      have hz' : z ∈ x :: ys := (insertRec_perm x ys).mem_iff.mp hz
      rcases List.mem_cons.mp hz' with rfl | hz'
      · omega
      · exact hy z hz'

theorem pySorted_sorted (l : List (Nat × Nat × Nat)) :
    (pySorted l).Pairwise (fun a b => a.1 ≤ b.1) := by
  induction l with
  | nil => simp [pySorted]
  | cons x xs ih => exact insertRec_sorted x (pySorted xs) ih

theorem pairwise_getLast_ge :
    ∀ (l : List (Nat × Nat × Nat)) (h : l ≠ []),
      l.Pairwise (fun a b => a.1 ≤ b.1) → ∀ x ∈ l, x.1 ≤ (l.getLast h).1 := by
  intro l
  induction l with
  | nil => intro h; exact absurd rfl h
  | cons a t ih =>
    intro h hp x hx
    rcases List.pairwise_cons.mp hp with ⟨ha, ht⟩
    cases t with
    | nil =>
      rcases List.mem_cons.mp hx with rfl | hx
      · simp [List.getLast_singleton]
      · simp at hx
    | cons b t' =>
      rw [List.getLast_cons (by simp)]
      rcases List.mem_cons.mp hx with rfl | hx
      · exact Nat.le_trans (ha _ (List.getLast_mem (by simp)))
          (Nat.le_refl _)
      · exact ih (by simp) ht x hx

/-- The element Python's `sorted(results, key=lambda x: x[0])[-1]` picks:
when `results` is a rearrangement of `records`, the keys of `records` are
pairwise distinct, and `r ∈ records` has the maximal key, the last element
of the sorted list is exactly `r`. -/
theorem pySorted_getLast_eq (results records : List (Nat × Nat × Nat))
    (hperm : results.Perm records)
    (hnd : (records.map fun x => x.1).Nodup)
    (r : Nat × Nat × Nat) (hr : r ∈ records) (hmax : ∀ x ∈ records, x.1 ≤ r.1) :
    (pySorted results).getLast? = some r := by
  have hp : (pySorted results).Perm records := (pySorted_perm results).trans hperm
  have hne : pySorted results ≠ [] := by
    intro h
    rw [h] at hp
    rw [← hp.nil_eq] at hr
    simp at hr
  rw [List.getLast?_eq_getLast _ hne]
  have hm_mem : (pySorted results).getLast hne ∈ records :=
    hp.mem_iff.mp (List.getLast_mem hne)
  have h1 := pairwise_getLast_ge (pySorted results) hne (pySorted_sorted results)
  have hr' : r ∈ pySorted results := hp.mem_iff.mpr hr
  have hkey : ((pySorted results).getLast hne).1 = r.1 :=
    Nat.le_antisymm (hmax _ hm_mem) (h1 r hr')
  exact congrArg some (List.inj_on_of_nodup_map hnd hm_mem hr hkey)

/-! Facts about `chunks` at the top level, and shape lemmas for
`chunked_bytes`. -/

theorem chunks_map_seq (C : Nat) (data : List Nat) :
    (chunks C data).map Chunk.seq_num = List.range (chunks C data).length := by
  rw [List.range_eq_range']
  exact chunksAux_map_seq C (data.length + 1) _

theorem chunks_ne_nil {C : Nat} {data : List Nat} (hC : 0 < C) (hdata : data ≠ []) :
    chunks C data ≠ [] :=
  chunksAux_ne_nil hC hdata (Nat.succ_pos _)

theorem chunks_seq_lt {C : Nat} {data : List Nat} {c : Chunk}
    (hc : c ∈ chunks C data) : c.seq_num < (chunks C data).length := by
  have hmem : c.seq_num ∈ (chunks C data).map Chunk.seq_num := List.mem_map_of_mem _ hc
  rw [chunks_map_seq] at hmem
  exact List.mem_range.mp hmem

theorem range'_getLast? (s : Nat) :
    ∀ n : Nat, (List.range' s (n + 1)).getLast? = some (s + n) := by
  intro n
  induction n generalizing s with
  | zero => rw [List.range'_one]; rfl
  | succ m ih =>
    have h2 := List.range'_succ s (m + 1) 1
    have h3 := List.range'_succ (s + 1) m 1
    rw [h2, h3, List.getLast?_cons_cons, ← h3, ih (s + 1)]
    congr 1
    omega

theorem chunks_getLast_seq {C : Nat} {data : List Nat} (h : chunks C data ≠ []) :
    ((chunks C data).getLast h).seq_num = (chunks C data).length - 1 := by
  have hlen : 0 < (chunks C data).length := List.length_pos.mpr h
  obtain ⟨k, hk⟩ : ∃ k, (chunks C data).length = k + 1 :=
    ⟨(chunks C data).length - 1, by omega⟩
  have hmap := List.getLast?_map Chunk.seq_num (chunks C data)
  rw [chunks_map_seq, List.range_eq_range', hk, range'_getLast? 0 k,
    List.getLast?_eq_getLast _ h] at hmap
  simp at hmap
  rw [hk]
  omega

theorem chunks_getLast_end {C : Nat} {data : List Nat} (hC : 0 < C)
    (h : chunks C data ≠ []) :
    ((chunks C data).getLast h).end_byte_offset = data.length := by
  have := chunksAux_getLast_end C hC (data.length + 1)
    { stream := data, seq_num := 0, byte_offset := 0 } (by simp)
    ((chunks C data).getLast h)
    (by rw [← List.getLast?_eq_getLast (chunks C data) h]; rfl)
  simpa using this

theorem chunk_events_filter (l : List Chunk) (p : Event → Bool)
    (hp : ∀ c : Chunk, p (Event.chunk c.seq_num c.byte_offset c.payload) = false) :
    (l.map (fun c => Event.chunk c.seq_num c.byte_offset c.payload)).filter p = [] := by
  induction l with
  | nil => rfl
  | cons c t ih => simp [List.filter_cons, hp c, ih]

theorem chunk_events_seqs (l : List Chunk) :
    (l.map (fun c => Event.chunk c.seq_num c.byte_offset c.payload)).filterMap
        Event.chunkSeq? = l.map Chunk.seq_num := by
  induction l with
  | nil => rfl
  | cons c t ih => simp [List.filterMap_cons, Event.chunkSeq?, ih]

theorem chunk_events_filterMap_none {β : Type} (l : List Chunk) (p : Event → Option β)
    (hp : ∀ c : Chunk, p (Event.chunk c.seq_num c.byte_offset c.payload) = none) :
    (l.map (fun c => Event.chunk c.seq_num c.byte_offset c.payload)).filterMap p = [] := by
  induction l with
  | nil => rfl
  | cons c t ih => simp [List.filterMap_cons, hp c, ih]

theorem chunked_bytes_iter_error (attrs : SourceAttrs) {cfg : Config}
    {fh : FileLikeVal} (ct : String) {e : PyErr}
    (h : chunksE cfg.preferred_chunk_size fh = .error e) :
    chunked_bytes attrs cfg fh ct = ([.initiate ct], .error e) := by
  simp [chunked_bytes, h]

theorem chunked_bytes_pool_error (attrs : SourceAttrs) {cfg : Config}
    {fh : FileLikeVal} (ct : String) {cs : List Chunk} {e : PyErr}
    (h : chunksE cfg.preferred_chunk_size fh = .ok cs)
    (hp : (poolRun cfg.chunkFails (cfg.schedule cs)).2 = .error e) :
    chunked_bytes attrs cfg fh ct =
      (.initiate ct :: (poolRun cfg.chunkFails (cfg.schedule cs)).1, .error e) := by
  simp [chunked_bytes, h, hp]

theorem chunked_bytes_empty_results (attrs : SourceAttrs) {cfg : Config}
    {fh : FileLikeVal} (ct : String) {cs : List Chunk}
    {results : List (Nat × Nat × Nat)}
    (h : chunksE cfg.preferred_chunk_size fh = .ok cs)
    (hp : (poolRun cfg.chunkFails (cfg.schedule cs)).2 = .ok results)
    (hs : (pySorted results).getLast? = none) :
    chunked_bytes attrs cfg fh ct =
      (.initiate ct :: (poolRun cfg.chunkFails (cfg.schedule cs)).1,
       .error .indexError) := by
  simp [chunked_bytes, h, hp, hs]

theorem chunked_bytes_commits (attrs : SourceAttrs) {cfg : Config}
    {fh : FileLikeVal} (ct : String) {cs : List Chunk}
    {results : List (Nat × Nat × Nat)} {r : Nat × Nat × Nat}
    (h : chunksE cfg.preferred_chunk_size fh = .ok cs)
    (hp : (poolRun cfg.chunkFails (cfg.schedule cs)).2 = .ok results)
    (hs : (pySorted results).getLast? = some r) :
    chunked_bytes attrs cfg fh ct =
      (.initiate ct :: (poolRun cfg.chunkFails (cfg.schedule cs)).1 ++
         [.commit r.1 r.2.2, .showCall],
       .ok cfg.snapshot) := by
  simp [chunked_bytes, h, hp, hs]

theorem chunked_bytes_initiates (attrs : SourceAttrs) (cfg : Config)
    (fh : FileLikeVal) (ct : String) :
    (chunked_bytes attrs cfg fh ct).1.filterMap Event.initCT? = [ct] := by
  cases h : chunksE cfg.preferred_chunk_size fh with
  | error e => rw [chunked_bytes_iter_error attrs ct h]; rfl
  | ok cs =>
    obtain ⟨n, hn⟩ := poolRun_events_shape cfg.chunkFails (cfg.schedule cs)
    cases hp : (poolRun cfg.chunkFails (cfg.schedule cs)).2 with
    | error e =>
      rw [chunked_bytes_pool_error attrs ct h hp, hn]
      generalize (cfg.schedule cs).take n = l
      simp only [List.filterMap_cons, Event.initCT?,
        chunk_events_filterMap_none l Event.initCT? (fun _ => rfl)]
    | ok results =>
      cases hs : (pySorted results).getLast? with
      | none =>
        rw [chunked_bytes_empty_results attrs ct h hp hs, hn]
        generalize (cfg.schedule cs).take n = l
        simp only [List.filterMap_cons, Event.initCT?,
          chunk_events_filterMap_none l Event.initCT? (fun _ => rfl)]
      | some r =>
        rw [chunked_bytes_commits attrs ct h hp hs, hn]
        generalize (cfg.schedule cs).take n = l
        rw [List.cons_append, List.filterMap_cons, List.filterMap_append]
        simp only [Event.initCT?,
          chunk_events_filterMap_none l Event.initCT? (fun _ => rfl)]
        rfl

theorem chunked_bytes_no_toggle (attrs : SourceAttrs) (cfg : Config)
    (fh : FileLikeVal) (ct : String) :
    (chunked_bytes attrs cfg fh ct).1.filter Event.isParseOptionChange = [] := by
  cases h : chunksE cfg.preferred_chunk_size fh with
  | error e => rw [chunked_bytes_iter_error attrs ct h]; rfl
  | ok cs =>
    obtain ⟨n, hn⟩ := poolRun_events_shape cfg.chunkFails (cfg.schedule cs)
    cases hp : (poolRun cfg.chunkFails (cfg.schedule cs)).2 with
    | error e =>
      rw [chunked_bytes_pool_error attrs ct h hp, hn]
      generalize (cfg.schedule cs).take n = l
      simp only [List.filter_cons, Event.isParseOptionChange,
        chunk_events_filter l Event.isParseOptionChange (fun _ => rfl)]
      rfl
    | ok results =>
      cases hs : (pySorted results).getLast? with
      | none =>
        rw [chunked_bytes_empty_results attrs ct h hp hs, hn]
        generalize (cfg.schedule cs).take n = l
        simp only [List.filter_cons, Event.isParseOptionChange,
          chunk_events_filter l Event.isParseOptionChange (fun _ => rfl)]
        rfl
      | some r =>
        rw [chunked_bytes_commits attrs ct h hp hs, hn]
        generalize (cfg.schedule cs).take n = l
        rw [List.cons_append, List.filter_cons, List.filter_append]
        simp only [Event.isParseOptionChange,
          chunk_events_filter l Event.isParseOptionChange (fun _ => rfl)]
        rfl

theorem runCallers_stopped (C : Nat) :
    ∀ (sched : List Nat) (st : IterState), ChunkIterator.next C st = none →
      runCallers C sched st = [] := by
  intro sched
  induction sched with
  | nil => intro st _; rfl
  | cons a rest ih =>
    intro st h
    simp [runCallers, h, ih st h]

theorem runCallers_delivered (C : Nat) :
    ∀ (sched : List Nat) (st : IterState),
      (runCallers C sched st).map Prod.snd = chunksAux C sched.length st := by
  intro sched
  induction sched with
  | nil => intro st; rfl
  | cons a rest ih =>
    intro st
    cases h : ChunkIterator.next C st with
    | none =>
      rw [runCallers_stopped C (a :: rest) st h]
      simp [chunksAux, h]
    | some p =>
      obtain ⟨c, st2⟩ := p
      simp [runCallers, h, chunksAux, ih]

/-! Claim theorems. -/

/-- C2: for every stream of length `L ≥ 0` and chunk size `C ≥ 1`, the
chunks produced by a `ChunkIterator` have byte ranges that partition
`[0, L)` with no gaps or overlaps — the first `byte_offset` is 0, each
chunk's `end_byte_offset` equals the next chunk's `byte_offset`, the last
`end_byte_offset` is `L` — each payload has length
`end_byte_offset - byte_offset` bounded by `C`, and the `seq_num`s are
exactly `0..k-1`, each appearing once, in read order. -/
theorem chunk_ranges_partition_stream (C : Nat) (data : List Nat) (hC : 1 ≤ C) :
    (chunks C data).map Chunk.seq_num = List.range (chunks C data).length ∧
    (∀ c, (chunks C data).head? = some c → c.byte_offset = 0) ∧
    List.Chain' (fun a b => a.end_byte_offset = b.byte_offset) (chunks C data) ∧
    (∀ h : chunks C data ≠ [], ((chunks C data).getLast h).end_byte_offset = data.length) ∧
    (∀ c ∈ chunks C data,
      c.payload.length = c.end_byte_offset - c.byte_offset ∧ c.payload.length ≤ C) := by
  refine ⟨chunks_map_seq C data, ?_, chunksAux_chain C _ _, ?_, ?_⟩
  · intro c hc
    exact chunksAux_head_byte_offset hc
  · intro h
    exact chunks_getLast_end hC h
  · intro c hc
    obtain ⟨he, hb, _⟩ := chunksAux_shape C _ _ c hc
    exact ⟨by omega, hb⟩

/-- C2 witness: the partition property at chunk size 2 over a 5-byte stream. -/
theorem chunk_ranges_partition_stream_witness :
    (chunks 2 [9, 8, 7, 6, 5]).map Chunk.seq_num =
        List.range (chunks 2 [9, 8, 7, 6, 5]).length ∧
    (∀ c, (chunks 2 [9, 8, 7, 6, 5]).head? = some c → c.byte_offset = 0) ∧
    List.Chain' (fun a b => a.end_byte_offset = b.byte_offset) (chunks 2 [9, 8, 7, 6, 5]) ∧
    (∀ h : chunks 2 [9, 8, 7, 6, 5] ≠ [],
      ((chunks 2 [9, 8, 7, 6, 5]).getLast h).end_byte_offset = [9, 8, 7, 6, 5].length) ∧
    (∀ c ∈ chunks 2 [9, 8, 7, 6, 5],
      c.payload.length = c.end_byte_offset - c.byte_offset ∧ c.payload.length ≤ 2) :=
  chunk_ranges_partition_stream 2 [9, 8, 7, 6, 5] (by decide)

/-- C3: for a stream whose length is an exact multiple of the chunk size
`C ≥ 1`, the iterator produces exactly `L / C` chunks and never a
trailing zero-length chunk; in general no produced chunk has an empty
payload, and `__next__` signals end-of-stream (`StopIteration`) exactly
when the underlying stream yields zero bytes, i.e. is exhausted. -/
theorem chunk_exact_multiple_terminates (C : Nat) (data : List Nat) (hC : 1 ≤ C)
    (hdvd : C ∣ data.length) :
    (chunks C data).length = data.length / C ∧
    (∀ c ∈ chunks C data, c.payload ≠ []) ∧
    (∀ st : IterState, ChunkIterator.next C st = none ↔ st.stream = []) := by
  refine ⟨?_, ?_, ?_⟩
  · obtain ⟨q, hq⟩ := hdvd
    rw [hq, Nat.mul_div_cancel_left q hC]
    exact chunksAux_length_of_mul C hC q (data.length + 1) _ hq (by simp [hq])
  · intro c hc
    exact (chunksAux_shape C _ _ c hc).2.2
  · intro st
    constructor
    · intro h
      by_cases he : (st.stream.take C).isEmpty
      · rcases List.take_eq_nil_iff.mp (List.isEmpty_iff.mp he) with h0 | h1
        · omega
        · exact h1
      · simp [ChunkIterator.next, he] at h
    · intro h
      simp [ChunkIterator.next, h]

/-- C3 witness: a 6-byte stream with chunk size 3 yields exactly 2 chunks. -/
theorem chunk_exact_multiple_terminates_witness :
    (chunks 3 [1, 2, 3, 4, 5, 6]).length = [1, 2, 3, 4, 5, 6].length / 3 ∧
    (∀ c ∈ chunks 3 [1, 2, 3, 4, 5, 6], c.payload ≠ []) ∧
    (∀ st : IterState, ChunkIterator.next 3 st = none ↔ st.stream = []) :=
  chunk_exact_multiple_terminates 3 [1, 2, 3, 4, 5, 6] (by decide) (by decide)

/-- C1: for every non-empty input stream, after all chunk uploads
complete, the coordinator calls `commit` exactly once, with the `seq_num`
and `end_byte_offset` of the completion record having the maximum
`seq_num`, and that `end_byte_offset` equals the total number of bytes
read from the stream, for every order in which the workers' completion
records arrive (any rearrangement `cfg.schedule` of the chunk list). -/
theorem upload_commits_max_seq_total (attrs : SourceAttrs) (cfg : Config)
    (data : List Nat) (ct : String)
    (hC : 0 < cfg.preferred_chunk_size) (hdata : data ≠ [])
    (hsched : ∀ l : List Chunk, (cfg.schedule l).Perm l)
    (hnofail : ∀ n, cfg.chunkFails n = false) :
    chunked_bytes attrs cfg (.handle data) ct =
      (Event.initiate ct ::
         (cfg.schedule (chunks cfg.preferred_chunk_size data)).map
           (fun c => Event.chunk c.seq_num c.byte_offset c.payload) ++
         [Event.commit ((chunks cfg.preferred_chunk_size data).length - 1) data.length,
          Event.showCall],
       .ok cfg.snapshot) ∧
    (chunked_bytes attrs cfg (.handle data) ct).1.filter Event.isCommit =
      [Event.commit ((chunks cfg.preferred_chunk_size data).length - 1) data.length] := by
  have hne : chunks cfg.preferred_chunk_size data ≠ [] := chunks_ne_nil hC hdata
  have h1 : chunksE cfg.preferred_chunk_size (.handle data) =
      .ok (chunks cfg.preferred_chunk_size data) := chunksE_handle _ _
  have hpool := poolRun_ok cfg.chunkFails
    (cfg.schedule (chunks cfg.preferred_chunk_size data)) (fun c _ => hnofail c.seq_num)
  have hp1 : (poolRun cfg.chunkFails
        (cfg.schedule (chunks cfg.preferred_chunk_size data))).1 =
      (cfg.schedule (chunks cfg.preferred_chunk_size data)).map
        (fun c => Event.chunk c.seq_num c.byte_offset c.payload) := by
    rw [hpool]
  have hp2 : (poolRun cfg.chunkFails
        (cfg.schedule (chunks cfg.preferred_chunk_size data))).2 =
      .ok ((cfg.schedule (chunks cfg.preferred_chunk_size data)).map
        (fun c => (c.seq_num, c.byte_offset, c.end_byte_offset))) := by
    rw [hpool]
  have hperm := (hsched (chunks cfg.preferred_chunk_size data)).map
    (fun c => (c.seq_num, c.byte_offset, c.end_byte_offset))
  have hnd : (((chunks cfg.preferred_chunk_size data).map
      (fun c => (c.seq_num, c.byte_offset, c.end_byte_offset))).map
        (fun x => x.1)).Nodup := by
    rw [List.map_map]
    have hco : ((fun x : Nat × Nat × Nat => x.1) ∘ fun c : Chunk =>
        (c.seq_num, c.byte_offset, c.end_byte_offset)) = Chunk.seq_num := rfl
    rw [hco, chunks_map_seq]
    exact List.nodup_range _
  have hrmem : (((chunks cfg.preferred_chunk_size data).getLast hne).seq_num,
      ((chunks cfg.preferred_chunk_size data).getLast hne).byte_offset,
      ((chunks cfg.preferred_chunk_size data).getLast hne).end_byte_offset) ∈
        (chunks cfg.preferred_chunk_size data).map
          (fun c => (c.seq_num, c.byte_offset, c.end_byte_offset)) :=
    List.mem_map_of_mem _ (List.getLast_mem hne)
  have hseq := chunks_getLast_seq hne
  have hend := chunks_getLast_end hC hne
  have hmax : ∀ x ∈ (chunks cfg.preferred_chunk_size data).map
      (fun c => (c.seq_num, c.byte_offset, c.end_byte_offset)),
      x.1 ≤ (((chunks cfg.preferred_chunk_size data).getLast hne).seq_num,
        ((chunks cfg.preferred_chunk_size data).getLast hne).byte_offset,
        ((chunks cfg.preferred_chunk_size data).getLast hne).end_byte_offset).1 := by
    intro x hx
    rcases List.mem_map.mp hx with ⟨c, hc, rfl⟩
    have h2 := chunks_seq_lt hc
    simp only
    omega
  have hsorted := pySorted_getLast_eq _ _ hperm hnd _ hrmem hmax
  have heq := chunked_bytes_commits attrs ct h1 hp2 hsorted
  rw [hp1] at heq
  simp only [hseq, hend] at heq
  exact ⟨heq, by
    rw [heq]
    simp only [List.filter_cons, List.filter_append,
      chunk_events_filter _ Event.isCommit (fun _ => rfl)]
    rfl⟩

/-- C1 witness: a 5-byte stream, chunk size 2, completion records arriving
in reverse order; commit is called once with `(2, 5)`. -/
theorem upload_commits_max_seq_total_witness :
    chunked_bytes { parse_source := true }
        { preferred_chunk_size := 2, preferred_upload_parallelism := 4,
          chunkFails := fun _ => false, schedule := List.reverse,
          snapshot := { resource_id := 7 } }
        (.handle [9, 8, 7, 6, 5]) "text/csv" =
      (Event.initiate "text/csv" ::
         (List.reverse (chunks 2 [9, 8, 7, 6, 5])).map
           (fun c => Event.chunk c.seq_num c.byte_offset c.payload) ++
         [Event.commit ((chunks 2 [9, 8, 7, 6, 5]).length - 1) [9, 8, 7, 6, 5].length,
          Event.showCall],
       .ok { resource_id := 7 }) ∧
    (chunked_bytes { parse_source := true }
        { preferred_chunk_size := 2, preferred_upload_parallelism := 4,
          chunkFails := fun _ => false, schedule := List.reverse,
          snapshot := { resource_id := 7 } }
        (.handle [9, 8, 7, 6, 5]) "text/csv").1.filter Event.isCommit =
      [Event.commit ((chunks 2 [9, 8, 7, 6, 5]).length - 1) [9, 8, 7, 6, 5].length] :=
  upload_commits_max_seq_total { parse_source := true }
    { preferred_chunk_size := 2, preferred_upload_parallelism := 4,
      chunkFails := fun _ => false, schedule := List.reverse,
      snapshot := { resource_id := 7 } }
    [9, 8, 7, 6, 5] "text/csv" (by decide) (by decide)
    (fun l => List.reverse_perm l) (fun _ => rfl)

/-- C4 counterexample: on a 0-byte stream the upload does not complete
normally and `show` is never reached — selecting the maximum-`seq_num`
record via `sorted(results, key=lambda x: x[0])[-1]` raises `IndexError`
on the empty result list, contradicting the claim that the operation
returns the refreshed resource snapshot. -/
theorem empty_upload_counterexample :
    (chunked_bytes { parse_source := true }
        { preferred_chunk_size := 100, preferred_upload_parallelism := 4,
          chunkFails := fun _ => false, schedule := id,
          snapshot := { resource_id := 7 } }
        (.handle []) "text/csv").2 = .error .indexError ∧
    (chunked_bytes { parse_source := true }
        { preferred_chunk_size := 100, preferred_upload_parallelism := 4,
          chunkFails := fun _ => false, schedule := id,
          snapshot := { resource_id := 7 } }
        (.handle []) "text/csv").1.filter Event.isShow = [] := by
  exact ⟨rfl, rfl⟩

/-- C4 (amended): for a 0-byte input stream, zero chunks are produced and
`commit` is never invoked, but the operation does not complete normally:
the selection of the maximum-`seq_num` completion record is unsafe on the
empty record set (`sorted(results)[-1]` raises `IndexError`), so `show`
is never called and the error propagates to the caller. -/
theorem empty_upload_raises_index_error (attrs : SourceAttrs) (cfg : Config) (ct : String)
    (hsched : ∀ l : List Chunk, (cfg.schedule l).Perm l) :
    chunked_bytes attrs cfg (.handle []) ct = ([Event.initiate ct], .error .indexError) ∧
    (chunked_bytes attrs cfg (.handle []) ct).1.filterMap Event.chunkSeq? = [] ∧
    (chunked_bytes attrs cfg (.handle []) ct).1.filter Event.isCommit = [] ∧
    (chunked_bytes attrs cfg (.handle []) ct).1.filter Event.isShow = [] := by
  have hcs : chunks cfg.preferred_chunk_size [] = [] := chunksAux_stream_nil
  have h1 : chunksE cfg.preferred_chunk_size (.handle []) = .ok [] := by
    rw [chunksE_handle, hcs]
  have hsched0 : cfg.schedule [] = [] := (hsched []).eq_nil
  have hp2 : (poolRun cfg.chunkFails (cfg.schedule [])).2 = .ok [] := by
    rw [hsched0]; rfl
  have heq := chunked_bytes_empty_results attrs ct h1 hp2 rfl
  rw [show (poolRun cfg.chunkFails (cfg.schedule [])).1 = [] from by rw [hsched0]; rfl]
    at heq
  exact ⟨heq, by rw [heq]; rfl, by rw [heq]; rfl, by rw [heq]; rfl⟩

/-- C4 witness: the amended behaviour at a concrete configuration. -/
theorem empty_upload_raises_index_error_witness :
    chunked_bytes { parse_source := false }
        { preferred_chunk_size := 5, preferred_upload_parallelism := 2,
          chunkFails := fun _ => false, schedule := id,
          snapshot := { resource_id := 3 } }
        (.handle []) "application/zip" =
      ([Event.initiate "application/zip"], .error .indexError) ∧
    (chunked_bytes { parse_source := false }
        { preferred_chunk_size := 5, preferred_upload_parallelism := 2,
          chunkFails := fun _ => false, schedule := id,
          snapshot := { resource_id := 3 } }
        (.handle []) "application/zip").1.filterMap Event.chunkSeq? = [] ∧
    (chunked_bytes { parse_source := false }
        { preferred_chunk_size := 5, preferred_upload_parallelism := 2,
          chunkFails := fun _ => false, schedule := id,
          snapshot := { resource_id := 3 } }
        (.handle []) "application/zip").1.filter Event.isCommit = [] ∧
    (chunked_bytes { parse_source := false }
        { preferred_chunk_size := 5, preferred_upload_parallelism := 2,
          chunkFails := fun _ => false, schedule := id,
          snapshot := { resource_id := 3 } }
        (.handle []) "application/zip").1.filter Event.isShow = [] :=
  empty_upload_raises_index_error { parse_source := false }
    { preferred_chunk_size := 5, preferred_upload_parallelism := 2,
      chunkFails := fun _ => false, schedule := id,
      snapshot := { resource_id := 3 } }
    "application/zip" (fun l => List.Perm.refl l)

/-- C5: if any chunk upload call raises a transport error, then `commit`
is never called, `show` is never called, the error propagates
synchronously to the caller of the upload operation, and no chunk is
retried (no `seq_num` is posted twice). -/
theorem chunk_failure_aborts_upload (attrs : SourceAttrs) (cfg : Config)
    (data : List Nat) (ct : String)
    (hsched : ∀ l : List Chunk, (cfg.schedule l).Perm l)
    (hfail : ∃ c ∈ chunks cfg.preferred_chunk_size data,
      cfg.chunkFails c.seq_num = true) :
    (∃ m, (chunked_bytes attrs cfg (.handle data) ct).2 =
        .error (.transportError m) ∧ cfg.chunkFails m = true) ∧
    (chunked_bytes attrs cfg (.handle data) ct).1.filter Event.isCommit = [] ∧
    (chunked_bytes attrs cfg (.handle data) ct).1.filter Event.isShow = [] ∧
    ((chunked_bytes attrs cfg (.handle data) ct).1.filterMap Event.chunkSeq?).Nodup := by
  have h1 : chunksE cfg.preferred_chunk_size (.handle data) =
      .ok (chunks cfg.preferred_chunk_size data) := chunksE_handle _ _
  obtain ⟨c, hc, hfc⟩ := hfail
  have hcsched : c ∈ cfg.schedule (chunks cfg.preferred_chunk_size data) :=
    (hsched _).mem_iff.mpr hc
  obtain ⟨m, hm, hfm⟩ := poolRun_error_of_fail cfg.chunkFails _ ⟨c, hcsched, hfc⟩
  have heq := chunked_bytes_pool_error attrs ct h1 hm
  obtain ⟨n, hn⟩ := poolRun_events_shape cfg.chunkFails
    (cfg.schedule (chunks cfg.preferred_chunk_size data))
  rw [hn] at heq
  have hnodup : ((cfg.schedule (chunks cfg.preferred_chunk_size data)).map
      Chunk.seq_num).Nodup := by
    rw [((hsched _).map Chunk.seq_num).nodup_iff, chunks_map_seq]
    exact List.nodup_range _
  refine ⟨⟨m, by rw [heq], hfm⟩, ?_, ?_, ?_⟩
  · rw [heq]
    simp only [List.filter_cons, chunk_events_filter _ Event.isCommit (fun _ => rfl)]
    rfl
  · rw [heq]
    simp only [List.filter_cons, chunk_events_filter _ Event.isShow (fun _ => rfl)]
    rfl
  · rw [heq]
    simp only [List.filterMap_cons, chunk_events_seqs]
    show (((cfg.schedule (chunks cfg.preferred_chunk_size data)).take n).map
      Chunk.seq_num).Nodup
    exact hnodup.sublist ((List.take_sublist n _).map Chunk.seq_num)

/-- C5 witness: chunk 1 of three fails; the upload surfaces a transport
error, posts no duplicate seq_num, and never commits. -/
theorem chunk_failure_aborts_upload_witness :
    (∃ m, (chunked_bytes { parse_source := true }
        { preferred_chunk_size := 2, preferred_upload_parallelism := 4,
          chunkFails := fun nn => nn == 1, schedule := id,
          snapshot := { resource_id := 7 } }
        (.handle [9, 8, 7, 6, 5]) "text/csv").2 =
        .error (.transportError m) ∧ (fun nn => nn == 1) m = true) ∧
    (chunked_bytes { parse_source := true }
        { preferred_chunk_size := 2, preferred_upload_parallelism := 4,
          chunkFails := fun nn => nn == 1, schedule := id,
          snapshot := { resource_id := 7 } }
        (.handle [9, 8, 7, 6, 5]) "text/csv").1.filter Event.isCommit = [] ∧
    (chunked_bytes { parse_source := true }
        { preferred_chunk_size := 2, preferred_upload_parallelism := 4,
          chunkFails := fun nn => nn == 1, schedule := id,
          snapshot := { resource_id := 7 } }
        (.handle [9, 8, 7, 6, 5]) "text/csv").1.filter Event.isShow = [] ∧
    ((chunked_bytes { parse_source := true }
        { preferred_chunk_size := 2, preferred_upload_parallelism := 4,
          chunkFails := fun nn => nn == 1, schedule := id,
          snapshot := { resource_id := 7 } }
        (.handle [9, 8, 7, 6, 5]) "text/csv").1.filterMap Event.chunkSeq?).Nodup :=
  chunk_failure_aborts_upload { parse_source := true }
    { preferred_chunk_size := 2, preferred_upload_parallelism := 4,
      chunkFails := fun nn => nn == 1, schedule := id,
      snapshot := { resource_id := 7 } }
    [9, 8, 7, 6, 5] "text/csv" (fun l => List.Perm.refl l)
    (by decide)

/-- C6: each public upload entry point invokes the same chunked pipeline
(`_chunked_bytes`) with a fixed MIME string determined purely by the
kind: csv → `text/csv`, xls → `application/vnd.ms-excel`, xlsx →
`application/vnd.openxmlformats-officedocument.spreadsheetml.sheet`,
tsv → `text/tab-separated-values`, shapefile → `application/zip`,
kml → `application/vnd.google-earth.kml+xml`, geojson →
`application/vnd.geo+json`, blob → `application/octet-stream`; for every
attribute set, configuration and file handle, the run's only `initiate`
call carries exactly that string. -/
theorem content_type_lookup_table :
    (∀ (a : SourceAttrs) (cfg : Config) (fh : FileLikeVal),
      Source.csv a cfg fh = chunked_bytes a cfg fh "text/csv" ∧
      (Source.csv a cfg fh).1.filterMap Event.initCT? = ["text/csv"]) ∧
    (∀ (a : SourceAttrs) (cfg : Config) (fh : FileLikeVal),
      Source.xls a cfg fh = chunked_bytes a cfg fh "application/vnd.ms-excel" ∧
      (Source.xls a cfg fh).1.filterMap Event.initCT? = ["application/vnd.ms-excel"]) ∧
    (∀ (a : SourceAttrs) (cfg : Config) (fh : FileLikeVal),
      Source.xlsx a cfg fh = chunked_bytes a cfg fh
          "application/vnd.openxmlformats-officedocument.spreadsheetml.sheet" ∧
      (Source.xlsx a cfg fh).1.filterMap Event.initCT? =
        ["application/vnd.openxmlformats-officedocument.spreadsheetml.sheet"]) ∧
    (∀ (a : SourceAttrs) (cfg : Config) (fh : FileLikeVal),
      Source.tsv a cfg fh = chunked_bytes a cfg fh "text/tab-separated-values" ∧
      (Source.tsv a cfg fh).1.filterMap Event.initCT? = ["text/tab-separated-values"]) ∧
    (∀ (a : SourceAttrs) (cfg : Config) (fh : FileLikeVal),
      Source.shapefile a cfg fh = chunked_bytes a cfg fh "application/zip" ∧
      (Source.shapefile a cfg fh).1.filterMap Event.initCT? = ["application/zip"]) ∧
    (∀ (a : SourceAttrs) (cfg : Config) (fh : FileLikeVal),
      Source.kml a cfg fh = chunked_bytes a cfg fh "application/vnd.google-earth.kml+xml" ∧
      (Source.kml a cfg fh).1.filterMap Event.initCT? =
        ["application/vnd.google-earth.kml+xml"]) ∧
    (∀ (a : SourceAttrs) (cfg : Config) (fh : FileLikeVal),
      Source.geojson a cfg fh = chunked_bytes a cfg fh "application/vnd.geo+json" ∧
      (Source.geojson a cfg fh).1.filterMap Event.initCT? = ["application/vnd.geo+json"]) ∧
    (∀ (a : SourceAttrs) (cfg : Config) (fh : FileLikeVal),
      (Source.blob a cfg fh).1.filterMap Event.initCT? = ["application/octet-stream"]) := by
  refine ⟨fun a cfg fh => ⟨rfl, chunked_bytes_initiates a cfg fh _⟩,
    fun a cfg fh => ⟨rfl, chunked_bytes_initiates a cfg fh _⟩,
    fun a cfg fh => ⟨rfl, chunked_bytes_initiates a cfg fh _⟩,
    fun a cfg fh => ⟨rfl, chunked_bytes_initiates a cfg fh _⟩,
    fun a cfg fh => ⟨rfl, chunked_bytes_initiates a cfg fh _⟩,
    fun a cfg fh => ⟨rfl, chunked_bytes_initiates a cfg fh _⟩,
    fun a cfg fh => ⟨rfl, chunked_bytes_initiates a cfg fh _⟩,
    fun a cfg fh => ?_⟩
  by_cases hps : a.parse_source
  · show (Source.blob a cfg fh).1.filterMap Event.initCT? = _
    simp only [Source.blob, hps, if_true]
    rw [List.filterMap_cons]
    simp only [Event.initCT?]
    exact chunked_bytes_initiates _ cfg fh _
  · simp only [Source.blob, hps, if_false]
    exact chunked_bytes_initiates a cfg fh _

/-- C7: for every blob upload, when the resource's `parse_source` option
is set it is disabled through the external resource layer before any
`initiate`, `chunk` or `commit` call runs (the toggle is the first event
of the trace, and the pipeline events contain no toggle), and the
pipeline then runs on the toggled resource; when `parse_source` is
already unset, no mutation is performed and the pipeline runs on the
original resource. -/
theorem blob_disables_parse_source (attrs : SourceAttrs) (cfg : Config)
    (fh : FileLikeVal) :
    (attrs.parse_source = true →
      Source.blob attrs cfg fh =
        (Event.parseOptionChange "parse_source" false ::
           (chunked_bytes (Source.disableParseSource attrs) cfg fh
              "application/octet-stream").1,
         (chunked_bytes (Source.disableParseSource attrs) cfg fh
            "application/octet-stream").2) ∧
      (Source.disableParseSource attrs).parse_source = false ∧
      (Source.blob attrs cfg fh).1.head? =
        some (Event.parseOptionChange "parse_source" false) ∧
      ((chunked_bytes (Source.disableParseSource attrs) cfg fh
          "application/octet-stream").1.filter Event.isParseOptionChange = [])) ∧
    (attrs.parse_source = false →
      Source.blob attrs cfg fh = chunked_bytes attrs cfg fh "application/octet-stream" ∧
      (Source.blob attrs cfg fh).1.filter Event.isParseOptionChange = []) := by
  constructor
  · intro hps
    have hblob : Source.blob attrs cfg fh =
        (Event.parseOptionChange "parse_source" false ::
           (chunked_bytes (Source.disableParseSource attrs) cfg fh
              "application/octet-stream").1,
         (chunked_bytes (Source.disableParseSource attrs) cfg fh
            "application/octet-stream").2) := by
      simp [Source.blob, hps]
    refine ⟨hblob, rfl, ?_, chunked_bytes_no_toggle _ cfg fh _⟩
    rw [hblob]
    rfl
  · intro hps
    have hblob : Source.blob attrs cfg fh =
        chunked_bytes attrs cfg fh "application/octet-stream" := by
      simp [Source.blob, hps]
    refine ⟨hblob, ?_⟩
    rw [hblob]
    exact chunked_bytes_no_toggle attrs cfg fh _

/-- C7 witness: both branches at concrete attribute values. -/
theorem blob_disables_parse_source_witness :
    (Source.blob { parse_source := true }
        { preferred_chunk_size := 2, preferred_upload_parallelism := 1,
          chunkFails := fun _ => false, schedule := id,
          snapshot := { resource_id := 7 } } (.handle [1, 2]) =
      (Event.parseOptionChange "parse_source" false ::
         (chunked_bytes (Source.disableParseSource { parse_source := true })
            { preferred_chunk_size := 2, preferred_upload_parallelism := 1,
              chunkFails := fun _ => false, schedule := id,
              snapshot := { resource_id := 7 } } (.handle [1, 2])
            "application/octet-stream").1,
       (chunked_bytes (Source.disableParseSource { parse_source := true })
          { preferred_chunk_size := 2, preferred_upload_parallelism := 1,
            chunkFails := fun _ => false, schedule := id,
            snapshot := { resource_id := 7 } } (.handle [1, 2])
          "application/octet-stream").2)) ∧
    (Source.blob { parse_source := false }
        { preferred_chunk_size := 2, preferred_upload_parallelism := 1,
          chunkFails := fun _ => false, schedule := id,
          snapshot := { resource_id := 7 } } (.handle [1, 2]) =
      chunked_bytes { parse_source := false }
        { preferred_chunk_size := 2, preferred_upload_parallelism := 1,
          chunkFails := fun _ => false, schedule := id,
          snapshot := { resource_id := 7 } } (.handle [1, 2])
        "application/octet-stream") :=
  ⟨((blob_disables_parse_source { parse_source := true }
      { preferred_chunk_size := 2, preferred_upload_parallelism := 1,
        chunkFails := fun _ => false, schedule := id,
        snapshot := { resource_id := 7 } } (.handle [1, 2])).1 rfl).1,
   ((blob_disables_parse_source { parse_source := false }
      { preferred_chunk_size := 2, preferred_upload_parallelism := 1,
        chunkFails := fun _ => false, schedule := id,
        snapshot := { resource_id := 7 } } (.handle [1, 2])).2 rfl).1⟩

/-- C8: when multiple callers draw from the same `ChunkIterator`, each
`next` call is one indivisible transition (the whole body of `__next__`
runs under `self.lock`), so for every interleaving of callers — every
schedule of critical-section entries — no two callers are assigned
duplicate `seq_num`s or overlapping byte ranges, and no chunk is
delivered twice. -/
theorem concurrent_callers_no_overlap (C : Nat) (sched : List Nat) (data : List Nat) :
    ((runCallers C sched { stream := data, seq_num := 0, byte_offset := 0 }).map
        (fun e => e.2.seq_num)).Nodup ∧
    ((runCallers C sched { stream := data, seq_num := 0, byte_offset := 0 }).map
        Prod.snd).Pairwise
      (fun a b => a.end_byte_offset ≤ b.byte_offset ∨ b.end_byte_offset ≤ a.byte_offset) ∧
    ((runCallers C sched { stream := data, seq_num := 0, byte_offset := 0 }).map
        Prod.snd).Nodup := by
  have hd := runCallers_delivered C sched { stream := data, seq_num := 0, byte_offset := 0 }
  have hseq : ((runCallers C sched
      { stream := data, seq_num := 0, byte_offset := 0 }).map (fun e => e.2.seq_num)) =
      ((runCallers C sched { stream := data, seq_num := 0, byte_offset := 0 }).map
        Prod.snd).map Chunk.seq_num := by
    rw [List.map_map]
    rfl
  have hnd : (((runCallers C sched { stream := data, seq_num := 0, byte_offset := 0 }).map
      Prod.snd).map Chunk.seq_num).Nodup := by
    rw [hd, chunksAux_map_seq]
    exact List.nodup_range' _ _
  refine ⟨by rw [hseq]; exact hnd, ?_, hnd.of_map Chunk.seq_num⟩
  rw [hd]
  exact (chunksAux_pairwise C sched.length _).imp (fun h => Or.inl h)

/-- C9: the backwards-compatibility entry point `Source.bytes` runs the
full chunked pipeline — same event trace, same propagated error — but
returns Python `None` on success, discarding the refreshed snapshot,
unlike the other upload entry points, which return the pipeline's value. -/
theorem bytes_discards_snapshot (attrs : SourceAttrs) (cfg : Config)
    (fh : FileLikeVal) (ct : String) :
    Source.bytes attrs cfg fh ct =
      ((chunked_bytes attrs cfg fh ct).1,
       (chunked_bytes attrs cfg fh ct).2.map fun _ => (none : Option Snapshot)) ∧
    (∀ s : Snapshot, (chunked_bytes attrs cfg fh ct).2 = .ok s →
      (Source.bytes attrs cfg fh ct).2 = .ok none) ∧
    (Source.csv attrs cfg fh).2 = (chunked_bytes attrs cfg fh "text/csv").2 := by
  refine ⟨rfl, ?_, rfl⟩
  intro s hs
  show (chunked_bytes attrs cfg fh ct).2.map (fun _ => (none : Option Snapshot)) = .ok none
  rw [hs]
  rfl

/-- C9 witness: a successful 3-byte upload through `Source.bytes` returns
`None`. -/
theorem bytes_discards_snapshot_witness :
    (Source.bytes { parse_source := true }
        { preferred_chunk_size := 2, preferred_upload_parallelism := 1,
          chunkFails := fun _ => false, schedule := id,
          snapshot := { resource_id := 7 } } (.handle [1, 2, 3]) "text/csv").2 =
      .ok none :=
  (bytes_discards_snapshot { parse_source := true }
      { preferred_chunk_size := 2, preferred_upload_parallelism := 1,
        chunkFails := fun _ => false, schedule := id,
        snapshot := { resource_id := 7 } } (.handle [1, 2, 3]) "text/csv").2.1
    { resource_id := 7 } rfl

/-- C10: `Source.df` hands the pipeline a raw Python `bytes` value, which
has no `read` method, so every `df` call raises `AttributeError` at the
first chunk read: only `initiate` is issued, no chunk call succeeds, and
`commit` is never called. -/
theorem df_upload_always_fails (attrs : SourceAttrs) (cfg : Config)
    (dataframe_csv : List Nat) :
    Source.df attrs cfg dataframe_csv =
      ([Event.initiate "text/csv"], .error .attributeError) ∧
    (Source.df attrs cfg dataframe_csv).1.filterMap Event.chunkSeq? = [] ∧
    (Source.df attrs cfg dataframe_csv).1.filter Event.isCommit = [] := by
  have h : Source.df attrs cfg dataframe_csv =
      ([Event.initiate "text/csv"], .error .attributeError) := by
    show chunked_bytes attrs cfg (.raw dataframe_csv) "text/csv" = _
    exact chunked_bytes_iter_error attrs "text/csv" (chunksE_raw cfg.preferred_chunk_size dataframe_csv)
  exact ⟨h, by rw [h]; rfl, by rw [h]; rfl⟩

end Socrata
